import Mathlib

/-!
Verification development for the backtrader broker simulator
(`backtrader/broker/bbroker.py`).  Prices, sizes and cash are embedded as
rationals; the mutable Python objects become explicit state records that the
embedded operations thread through.
-/

namespace BBroker

/-- Modelled from the spec: the `CommissionInfo` external contract
(`comminfo.py` is not part of the sources).  Per-instrument `multiplier`,
`marginRequirement`, `isStockLike`; stock-like instruments move full notional
cash, futures-like ones move margin plus daily settlement.  The commission
rate gives the `commission(size, price)` pure function (the spec fixes the
signature, not the schedule; scenarios use rate zero). -/
structure CommInfo where
  mult : ℚ
  margin : ℚ
  commrate : ℚ
  stocklike : Bool
deriving Repr, DecidableEq

/-- Modelled from the spec: `operationCost(size, price)` — full notional for
stock-like instruments, margin per contract for futures-like ones; applied to
the absolute size. -/
def CommInfo.getoperationcost (c : CommInfo) (size price : ℚ) : ℚ :=
  if c.stocklike then |size| * price else |size| * c.margin

/-- Modelled from the spec: `commission(size, price)` on the absolute size. -/
def CommInfo.getcommission (c : CommInfo) (size price : ℚ) : ℚ :=
  |size| * price * c.commrate

/-- Modelled from the spec: `cashAdjust(size, priceFrom, priceTo)` — the
futures-style settlement cash flow; a no-op (zero) for stock-like
instruments. -/
def CommInfo.cashadjust (c : CommInfo) (size pfrom pto : ℚ) : ℚ :=
  if c.stocklike then 0 else size * (pto - pfrom) * c.mult

/-- Modelled from the spec: `profitAndLoss(size, priceFrom, priceTo)`. -/
def CommInfo.profitandloss (c : CommInfo) (size pfrom pto : ℚ) : ℚ :=
  size * (pto - pfrom) * c.mult

/-- Modelled from the spec: per-instrument position value used by
`getValue` — signed notional for stock-like instruments, signed margin for
futures-like ones (short positions give a negative raw value). -/
def CommInfo.getvalue (c : CommInfo) (size price : ℚ) : ℚ :=
  if c.stocklike then size * price else size * c.margin

/-- The `1`/`0` factor Python obtains by multiplying a float by the
`stocklike` boolean. -/
def CommInfo.stockflag (c : CommInfo) : ℚ :=
  if c.stocklike then 1 else 0

/-- Modelled from the spec: the Position Tracker — per-instrument signed
`size`, `averagePrice` and `adjustmentBase` (last mark-to-market price,
futures-style instruments only); `position.py` is not part of the sources. -/
structure Position where
  size : ℚ
  price : ℚ
  adjbase : ℚ
deriving Repr, DecidableEq

instance : Inhabited Position := ⟨⟨0, 0, 0⟩⟩

/-- A fresh `defaultdict` position is flat. -/
theorem default_position : (default : Position) = ⟨0, 0, 0⟩ := rfl

/-- Result of a position update: the new position together with the tuple
`(psize, pprice, opened, closed)` that the Python `update`/`pseudoupdate`
return. -/
structure PosUpd where
  pos : Position
  psize : ℚ
  pprice : ℚ
  opened : ℚ
  closed : ℚ
deriving Repr, DecidableEq

/-- Modelled from the spec: `Position.update` — reducing toward zero is a
close, a same-direction increase is an open (average price re-weighted), and
a cross through zero closes the whole old side and opens the remainder on
the new side. -/
def Position.update (p : Position) (size price : ℚ) : PosUpd :=
  let oldsize := p.size
  let newsize := oldsize + size
  if newsize = 0 then
    ⟨{ p with size := 0, price := 0 }, 0, 0, 0, size⟩
  else if oldsize = 0 then
    ⟨{ p with size := newsize, price := price }, newsize, price, size, 0⟩
  else if 0 < oldsize then
    if 0 < size then
      let np := (p.price * oldsize + size * price) / newsize
      ⟨{ p with size := newsize, price := np }, newsize, np, size, 0⟩
    else if 0 < newsize then
      ⟨{ p with size := newsize }, newsize, p.price, 0, size⟩
    else
      ⟨{ p with size := newsize, price := price }, newsize, price, newsize,
        -oldsize⟩
  else
    if size < 0 then
      let np := (p.price * oldsize + size * price) / newsize
      ⟨{ p with size := newsize, price := np }, newsize, np, size, 0⟩
    else if newsize < 0 then
      ⟨{ p with size := newsize }, newsize, p.price, 0, size⟩
    else
      ⟨{ p with size := newsize, price := price }, newsize, price, newsize,
        -oldsize⟩

/-- `Position.pseudoupdate`: the same computation as `update` but leaving the
position untouched (the caller reads the returned tuple only). -/
def Position.pseudoupdate (p : Position) (size price : ℚ) : PosUpd :=
  p.update size price

/-- Order status values (`Order.Margin` is the `MarginRejected` state of the
spec). -/
inductive OrdStatus
  | Created | Submitted | Accepted | Partial | Completed
  | Canceled | Expired | Margin | Rejected
deriving Repr, DecidableEq

/-- Execution types supported by the broker simulator. -/
inductive ExecType
  | Market | Close | Limit | Stop | StopLimit
deriving Repr, DecidableEq

/-- Modelled from the spec: the mutable order record (`order.py` is not part
of the sources).  `remsize` is the signed remaining size (negative for
sells); `createdPrice`/`pricelimit` are `order.created.price` and
`order.created.pricelimit`; `pannotated`, `plen` and `dteos` support the
Close-order end-of-session logic; `valid` is the expiry timestamp. -/
structure Order where
  ref : Nat
  dataId : Nat
  isbuy : Bool
  exectype : ExecType
  createdPrice : ℚ
  pricelimit : ℚ
  remsize : ℚ
  status : OrdStatus
  triggered : Bool
  valid : Option ℚ
  pannotated : Option ℚ
  plen : Nat
  dteos : ℚ
deriving Repr, DecidableEq

/-- Modelled from the spec: `order.submit()` sets status Submitted. -/
def Order.submit (o : Order) : Order := { o with status := .Submitted }

/-- Modelled from the spec: `order.accept()` sets status Accepted. -/
def Order.accept (o : Order) : Order := { o with status := .Accepted }

/-- Modelled from the spec: `order.margin()` sets status MarginRejected. -/
def Order.margin (o : Order) : Order := { o with status := .Margin }

/-- Modelled from the spec: `order.cancel()` sets status Canceled. -/
def Order.cancel (o : Order) : Order := { o with status := .Canceled }

/-- Modelled from the spec: `order.execute(...)` records a fill — advances
the remaining size and sets status Completed (remaining zero) or
PartiallyFilled. -/
def Order.execute (o : Order) (execsize : ℚ) : Order :=
  let rem := o.remsize - execsize
  { o with remsize := rem,
           status := if rem = 0 then .Completed else .Partial }

/-- Modelled from the spec: `order.alive()` — the order stays in the Pending
queue while Accepted or PartiallyFilled. -/
def Order.alive (o : Order) : Bool :=
  o.status = .Accepted ∨ o.status = .Partial

/-- Modelled from the spec: `order.expire()` — an order with a validity
timestamp strictly before the current bar time becomes Expired. -/
def Order.expired (o : Order) (dt0 : ℚ) : Bool :=
  match o.valid with
  | none => false
  | some v => v < dt0

/-- Outcome of one real execution (`_execute` with `ago` not `None`): the
updated ledger cash, position and order, the appended notification
snapshots, the recorded legs (as passed to `order.execute`), the
mark-to-market adjustment terms actually applied, and the `ago` bar index
that was passed in. -/
structure ExecRes where
  cash : ℚ
  pos : Position
  ord : Order
  notifs : List Order
  closed : ℚ
  closedvalue : ℚ
  closedcomm : ℚ
  pnl : ℚ
  opened : ℚ
  openedvalue : ℚ
  openedcomm : ℚ
  adjclosed : ℚ
  adjopen : ℚ
  ago : Int
deriving Repr, DecidableEq

/-- Intermediate result of the open-leg block of `_execute`: the surviving
opened size, its cost and commission, the same-direction re-basing
adjustment, the position (with its adjustment base possibly re-based) and
the ledger cash after the block. -/
structure OpenLeg where
  opened : ℚ
  openedvalue : ℚ
  openedcomm : ℚ
  adjopen : ℚ
  pos : Position
  selfcash : ℚ
deriving Repr, DecidableEq

/-- `BrokerBack._execute` with a real bar index (`ago` is not `None` and no
volume filler is installed): the full size `order.executed.remsize` is
executed at `price`.  The close leg re-injects returned value, realized
P&L (stock-like only) and the closed-contract cash adjustment, minus the
close commission; the open leg withdraws operation cost and commission, is
voided when cash would go negative (MarginRejected), and otherwise re-bases
pre-existing same-direction exposure and the adjustment base.  The ledger
cash `self.cash` is only written at the two points the source writes it. -/
def execReal (c : CommInfo) (o : Order) (position : Position)
    (selfcash : ℚ) (ago : Int) (price : ℚ) (notifs : List Order) : ExecRes :=
  let size := o.remsize
  let pprice_orig := position.price
  let u := position.pseudoupdate size price
  let pnl := c.profitandloss (-u.closed) pprice_orig price
  -- close leg
  let closedvalue := if u.closed ≠ 0 then c.getoperationcost u.closed pprice_orig else 0
  let closedcomm := if u.closed ≠ 0 then c.getcommission u.closed price else 0
  let adjclosed :=
    if u.closed ≠ 0 then c.cashadjust (-u.closed) position.adjbase price else 0
  let cash1 := if u.closed ≠ 0 then
      selfcash + closedvalue + pnl * c.stockflag - closedcomm + adjclosed
    else selfcash
  let selfcash1 := if u.closed ≠ 0 then cash1 else selfcash
  -- open leg
  let ob : OpenLeg :=
    if u.opened ≠ 0 then
      let ov := c.getoperationcost u.opened price
      let oc := c.getcommission u.opened price
      let cash2 := cash1 - ov - oc
      if cash2 < 0 then
        -- execution is not possible: void the open leg, self.cash untouched
        ⟨0, 0, 0, 0, position, selfcash1⟩
      else
        let adjopen := if |u.psize| > |u.opened| then
            c.cashadjust (u.psize - u.opened) position.adjbase price else 0
        ⟨u.opened, ov, oc, adjopen, { position with adjbase := price },
          cash2 + adjopen⟩
    else ⟨0, 0, 0, 0, position, selfcash1⟩
  -- confirm execution
  let execsize := u.closed + ob.opened
  let pos2 := if execsize ≠ 0 then (ob.pos.update execsize price).pos else ob.pos
  let ord1 := if execsize ≠ 0 then o.execute execsize else o
  let notifs1 := if execsize ≠ 0 then notifs ++ [ord1] else notifs
  let marginflag := u.opened ≠ 0 ∧ ob.opened = 0
  let ord2 := if marginflag then ord1.margin else ord1
  let notifs2 := if marginflag then notifs1 ++ [ord2] else notifs1
  { cash := ob.selfcash, pos := pos2, ord := ord2, notifs := notifs2,
    closed := u.closed, closedvalue := closedvalue, closedcomm := closedcomm,
    pnl := pnl, opened := ob.opened, openedvalue := ob.openedvalue,
    openedcomm := ob.openedcomm, adjclosed := adjclosed, adjopen := ob.adjopen,
    ago := ago }

/-- `BrokerBack._execute` with `ago = None` (admission pseudo-execution):
executes the order at its creation price against the supplied cloned
position and scratch cash, updates the clone, and returns the resulting
scratch cash (possibly negative — it is not restored when the open leg is
voided). -/
def execPseudo (c : CommInfo) (o : Order) (position : Position)
    (cash : ℚ) : ℚ × Position :=
  let size := o.remsize
  -- in the pseudo path the source rebinds price = pprice_orig = created price
  let price := o.createdPrice
  let u := position.update size price
  let cash1 := if u.closed ≠ 0 then
      cash + c.getoperationcost u.closed price
        - c.getcommission u.closed price
    else cash
  let cash2 := if u.opened ≠ 0 then
      cash1 - c.getoperationcost u.opened price
        - c.getcommission u.opened price
    else cash1
  (cash2, u.pos)

/-- The cash to which the open leg's deductions are applied in `_execute`:
the ledger cash after the close leg (or the incoming ledger cash when
nothing closed).  Written exactly as the source computes it. -/
def closeLegCash (c : CommInfo) (o : Order) (position : Position)
    (selfcash price : ℚ) : ℚ :=
  let u := position.pseudoupdate o.remsize price
  let pnl := c.profitandloss (-u.closed) position.price price
  if u.closed ≠ 0 then
    selfcash + c.getoperationcost u.closed position.price + pnl * c.stockflag
      - c.getcommission u.closed price
      + c.cashadjust (-u.closed) position.adjbase price
  else selfcash

/-- The margin-rejection condition of `_execute`: an open leg exists and its
operation cost plus commission drives the (close-leg adjusted) cash below
zero. -/
def marginCondition (c : CommInfo) (o : Order) (position : Position)
    (selfcash price : ℚ) : Prop :=
  let u := position.pseudoupdate o.remsize price
  u.opened ≠ 0 ∧
    closeLegCash c o position selfcash price
      - c.getoperationcost u.opened price
      - c.getcommission u.opened price < 0

/-- C1: Cash conservation on execution — for every fill applied by the
execution engine (`_execute` with a real bar index), the ledger cash
afterwards equals the cash before, minus the opened leg's operation cost and
commission, plus the closed leg's returned value, minus the closed leg's
commission, plus the realized P&L times the stock-like flag, plus the
cash-adjustment terms for closed contracts and for re-based pre-existing
same-direction exposure — exactly this sum and nothing else. -/
theorem execReal_cash_conservation (c : CommInfo) (o : Order)
    (position : Position) (selfcash : ℚ) (ago : Int) (price : ℚ)
    (notifs : List Order) :
    (execReal c o position selfcash ago price notifs).cash =
      selfcash
        - (execReal c o position selfcash ago price notifs).openedvalue
        - (execReal c o position selfcash ago price notifs).openedcomm
        + (execReal c o position selfcash ago price notifs).closedvalue
        - (execReal c o position selfcash ago price notifs).closedcomm
        + (execReal c o position selfcash ago price notifs).pnl * c.stockflag
        + (execReal c o position selfcash ago price notifs).adjclosed
        + (execReal c o position selfcash ago price notifs).adjopen := by
  rcases eq_or_ne (position.update o.remsize price).closed 0 with hc | hc <;>
    (unfold execReal
     simp only [CommInfo.profitandloss, Position.pseudoupdate]
     split_ifs) <;>
    (try ring) <;> simp_all <;> (try ring)

/-- C2: Open-leg voiding at fill time — whenever the opening leg's cost plus
commission would drive cash below zero, the opened size, value and
commission are reset to zero, the order is flagged MarginRejected and a
notification is emitted, while any close leg already applied in the same
execution remains in effect: the ledger cash is exactly the close-leg
cash. -/
theorem execReal_open_leg_voiding (c : CommInfo) (o : Order)
    (position : Position) (selfcash : ℚ) (ago : Int) (price : ℚ)
    (notifs : List Order)
    (h : marginCondition c o position selfcash price) :
    (execReal c o position selfcash ago price notifs).opened = 0 ∧
    (execReal c o position selfcash ago price notifs).openedvalue = 0 ∧
    (execReal c o position selfcash ago price notifs).openedcomm = 0 ∧
    (execReal c o position selfcash ago price notifs).ord.status = .Margin ∧
    notifs.length < (execReal c o position selfcash ago price notifs).notifs.length ∧
    (execReal c o position selfcash ago price notifs).notifs.getLast? =
      some (execReal c o position selfcash ago price notifs).ord ∧
    (execReal c o position selfcash ago price notifs).cash =
      closeLegCash c o position selfcash price := by
  unfold marginCondition closeLegCash at h
  simp only [Position.pseudoupdate] at h
  obtain ⟨ho, hlt⟩ := h
  unfold execReal closeLegCash
  simp only [Position.pseudoupdate]
  split_ifs <;>
    simp_all [Order.margin, Order.execute, List.getLast?_concat]

/-- Witness for C2: a buy of 10 at price 100 against cash 50 (stock-like,
zero commission) trips the margin condition: the open leg is voided and the
cash is untouched (no close leg). -/
theorem execReal_open_leg_voiding_witness :
    marginCondition ⟨1, 0, 0, true⟩
      ⟨0, 0, true, .Market, 100, 0, 10, .Accepted, false, none, none, 0, 0⟩
      ⟨0, 0, 0⟩ 50 100 ∧
    (execReal ⟨1, 0, 0, true⟩
      ⟨0, 0, true, .Market, 100, 0, 10, .Accepted, false, none, none, 0, 0⟩
      ⟨0, 0, 0⟩ 50 0 100 []).opened = 0 ∧
    (execReal ⟨1, 0, 0, true⟩
      ⟨0, 0, true, .Market, 100, 0, 10, .Accepted, false, none, none, 0, 0⟩
      ⟨0, 0, 0⟩ 50 0 100 []).ord.status = .Margin ∧
    (execReal ⟨1, 0, 0, true⟩
      ⟨0, 0, true, .Market, 100, 0, 10, .Accepted, false, none, none, 0, 0⟩
      ⟨0, 0, 0⟩ 50 0 100 []).cash = 50 := by
  have hm : marginCondition ⟨1, 0, 0, true⟩
      ⟨0, 0, true, .Market, 100, 0, 10, .Accepted, false, none, none, 0, 0⟩
      ⟨0, 0, 0⟩ 50 100 := by
    unfold marginCondition closeLegCash
    norm_num [Position.pseudoupdate, Position.update,
      CommInfo.getoperationcost, CommInfo.getcommission, CommInfo.cashadjust,
      CommInfo.profitandloss, CommInfo.stockflag]
  have hr := execReal_open_leg_voiding ⟨1, 0, 0, true⟩
      ⟨0, 0, true, .Market, 100, 0, 10, .Accepted, false, none, none, 0, 0⟩
      ⟨0, 0, 0⟩ 50 0 100 [] hm
  refine ⟨hm, hr.1, hr.2.2.2.1, ?_⟩
  rw [hr.2.2.2.2.2.2]
  unfold closeLegCash
  norm_num [Position.pseudoupdate, Position.update,
    CommInfo.getoperationcost, CommInfo.getcommission, CommInfo.cashadjust,
    CommInfo.profitandloss, CommInfo.stockflag]

/-- One instrument's current bar: OHLC, the bar timestamp (and the previous
bar's), the feed length and the optional tick-level overrides. -/
structure BarData where
  op : ℚ
  hi : ℚ
  lo : ℚ
  cl : ℚ
  dt : ℚ
  dtPrev : ℚ
  len : Nat
  tickOpen : Option ℚ
  tickHigh : Option ℚ
  tickLow : Option ℚ
  tickClose : Option ℚ
deriving Repr, DecidableEq

/-- Python's `tick_x or data.x[0]`: a missing or zero (falsy) tick value
falls back to the bar value. -/
def pyOr (t : Option ℚ) (d : ℚ) : ℚ :=
  match t with
  | none => d
  | some x => if x = 0 then d else x

/-- Python truthiness of `order.pannotated` (an optional price). -/
def pyTruthy (t : Option ℚ) : Bool :=
  match t with
  | none => false
  | some x => x != 0

/-- The per-order execution context threaded through `_try_exec`: the ledger
cash, the order's position, the order itself, the notification queue, and a
log of the `(ago, price)` arguments of every `_execute` call made. -/
structure XCtx where
  cash : ℚ
  pos : Position
  ord : Order
  notifs : List Order
  agolog : List (Int × ℚ)
deriving Repr, DecidableEq

/-- `_execute` on an execution context, logging the bar index and price the
engine passed. -/
def execRealX (c : CommInfo) (x : XCtx) (ago : Int) (price : ℚ) : XCtx :=
  let r := execReal c x.ord x.pos x.cash ago price x.notifs
  ⟨r.cash, r.pos, r.ord, r.notifs, x.agolog ++ [(ago, price)]⟩

/-- `BrokerBack._try_exec_close`: a Close order fills only once the feed is
past (or, with `eosbar`, exactly at) the end-of-session timestamp and a new
bar has arrived; when the decision was deferred (an annotated close exists
and the time moved past the session end) the annotated previous close is
the execution price.  The source computes a `-1` bar index for the deferred
case but passes the literal `0` to `_execute`; the embedding reproduces
that call faithfully.  Otherwise the bar's close is annotated. -/
def tryExecClose (eosbar : Bool) (c : CommInfo) (x : XCtx) (bar : BarData) :
    XCtx :=
  if bar.len > x.ord.plen ∧
      (bar.dt > x.ord.dteos ∨ (eosbar ∧ bar.dt = x.ord.dteos)) then
    let execprice :=
      if pyTruthy x.ord.pannotated ∧ bar.dt ≠ x.ord.dteos then
        x.ord.pannotated.getD 0
      else bar.cl
    execRealX c x 0 execprice
  else
    { x with ord := { x.ord with pannotated := some bar.cl } }

/-- `BrokerBack._try_exec_limit`: buy fills at the open when the limit is at
or above it, else at the limit when the day low reaches it; sell is the
mirror against the high. -/
def tryExecLimit (c : CommInfo) (x : XCtx)
    (popen phigh plow plimit : ℚ) : XCtx :=
  if x.ord.isbuy then
    if plimit ≥ popen then execRealX c x 0 popen
    else if plimit ≥ plow then execRealX c x 0 plimit
    else x
  else
    if plimit ≤ popen then execRealX c x 0 popen
    else if plimit ≤ phigh then execRealX c x 0 plimit
    else x

/-- `BrokerBack._try_exec_stop`: buy fills at the open on a gap through the
trigger, else at the trigger when the high reaches it; sell mirrored. -/
def tryExecStop (c : CommInfo) (x : XCtx)
    (popen phigh plow pcreated : ℚ) : XCtx :=
  if x.ord.isbuy then
    if popen ≥ pcreated then execRealX c x 0 popen
    else if phigh ≥ pcreated then execRealX c x 0 pcreated
    else x
  else
    if popen ≤ pcreated then execRealX c x 0 popen
    else if plow ≤ pcreated then execRealX c x 0 pcreated
    else x

/-- Mark the order triggered (the StopLimit latch). -/
def XCtx.trigger (x : XCtx) : XCtx :=
  { x with ord := { x.ord with triggered := true } }

/-- `BrokerBack._try_exec_stoplimit`: the stop condition decides whether the
order triggers this bar; a gap through the trigger immediately re-applies
the limit rule from the open, an intrabar touch applies the bar-shape
sub-rule of the source (including its asymmetric sell side). -/
def tryExecStopLimit (c : CommInfo) (x : XCtx)
    (popen phigh plow pclose pcreated plimit : ℚ) : XCtx :=
  if x.ord.isbuy then
    if popen ≥ pcreated then
      let x1 := x.trigger
      if plimit ≥ popen then execRealX c x1 0 popen
      else if plimit ≥ plow then execRealX c x1 0 plimit
      else x1
    else if phigh ≥ pcreated then
      let x1 := x.trigger
      if popen > pclose then
        if plimit ≥ pcreated then execRealX c x1 0 pcreated
        else if plimit ≥ pclose then execRealX c x1 0 plimit
        else x1
      else
        if plimit ≥ pcreated then execRealX c x1 0 pcreated
        else x1
    else x
  else
    if popen ≤ pcreated then
      let x1 := x.trigger
      if plimit ≤ popen then execRealX c x1 0 popen
      else if plimit ≤ phigh then execRealX c x1 0 plimit
      else x1
    else if plow ≤ pcreated then
      let x1 := x.trigger
      if popen ≤ pclose then
        if plimit ≤ pcreated then execRealX c x1 0 pcreated
        else if plimit ≤ pclose then execRealX c x1 0 plimit
        else x1
      else
        if plimit ≤ pcreated then execRealX c x1 0 pcreated
        else x1
    else x

/-- `BrokerBack._try_exec`: resolve tick overrides and dispatch on the
order's execution type (a triggered StopLimit is matched purely as a Limit
order at its limit price). -/
def tryExec (eosbar : Bool) (c : CommInfo) (x : XCtx) (bar : BarData) :
    XCtx :=
  let popen := pyOr bar.tickOpen bar.op
  let phigh := pyOr bar.tickHigh bar.hi
  let plow := pyOr bar.tickLow bar.lo
  let pclose := pyOr bar.tickClose bar.cl
  let pcreated := x.ord.createdPrice
  let plimit := x.ord.pricelimit
  match x.ord.exectype with
  | .Market => execRealX c x 0 popen
  | .Close => tryExecClose eosbar c x bar
  | .Limit => tryExecLimit c x popen phigh plow pcreated
  | .Stop => tryExecStop c x popen phigh plow pcreated
  | .StopLimit =>
      if x.ord.triggered then tryExecLimit c x popen phigh plow plimit
      else tryExecStopLimit c x popen phigh plow pclose pcreated plimit

/-- Lookup in the instrument → Position map (a `defaultdict`: a missing
instrument reads as the zero position). -/
def posGet (ps : List (Nat × Position)) (d : Nat) : Position :=
  match ps.find? (fun e => e.1 == d) with
  | some e => e.2
  | none => default

/-- Write to the instrument → Position map, appending a new entry (in
insertion order, as a Python dict does) when the instrument is new. -/
def posSet (ps : List (Nat × Position)) (d : Nat) (p : Position) :
    List (Nat × Position) :=
  match ps with
  | [] => [(d, p)]
  | e :: rest => if e.1 = d then (d, p) :: rest else e :: posSet rest d p

/-- Ensure an entry exists for the instrument (the `defaultdict` access side
effect). -/
def posEnsure (ps : List (Nat × Position)) (d : Nat) : List (Nat × Position) :=
  if (ps.find? (fun e => e.1 == d)).isSome then ps else ps ++ [(d, default)]

/-- Point update of the order store. -/
def updStore (s : Nat → Order) (r : Nat) (o : Order) : Nat → Order :=
  fun r' => if r' = r then o else s r'

/-- The `BrokerBack` state: ledger cash, the append-only order list, the
order objects (by reference), the Submitted and Pending queues, the
instrument → Position map, the notification queue, the per-instrument
commission info and the `checksubmit` / `eosbar` parameters. -/
structure Broker where
  cash : ℚ
  startingcash : ℚ
  orders : List Nat
  store : Nat → Order
  submitted : List Nat
  pending : List Nat
  positions : List (Nat × Position)
  notifs : List Order
  comms : Nat → CommInfo
  checksubmit : Bool
  eosbar : Bool

/-- `BrokerBack.init`: fresh queues and positions, cash from the `cash`
parameter. -/
def Broker.init (cash : ℚ) (comms : Nat → CommInfo) (checksubmit eosbar : Bool)
    (store : Nat → Order) : Broker :=
  ⟨cash, cash, [], store, [], [], [], [], comms, checksubmit, eosbar⟩

/-- `BrokerBack.submit_accept`: clear the close-price annotation, accept the
order, append it to the Pending queue and notify. -/
def submitAccept (b : Broker) (o : Order) : Broker :=
  let o1 := Order.accept { o with pannotated := none }
  { b with store := updStore b.store o1.ref o1,
           pending := b.pending ++ [o1.ref],
           notifs := b.notifs ++ [o1] }

/-- `BrokerBack.submit`: with `checksubmit` the order is marked Submitted,
queued for the admission check and notified; otherwise it is accepted
directly. -/
def submit (b : Broker) (o : Order) : Broker :=
  if b.checksubmit then
    let o1 := o.submit
    { b with store := updStore b.store o1.ref o1,
             submitted := b.submitted ++ [o1.ref],
             orders := b.orders ++ [o1.ref],
             notifs := b.notifs ++ [o1] }
  else
    submitAccept b o

/-- Accumulator of the `check_submitted` drain loop: the order store, the
Pending queue and notifications being extended, the scratch cash threaded
through the pseudo-executions, the per-instrument cloned positions, and the
live position map (touched only by the `defaultdict` access). -/
structure CheckAcc where
  store : Nat → Order
  pending : List Nat
  notifs : List Order
  scratch : ℚ
  clones : List (Nat × Position)
  livepos : List (Nat × Position)

/-- One iteration of `check_submitted`: clone the live position on first
touch, pseudo-execute the order against the scratch cash, and either accept
(Pending) or margin-reject it — in both cases the resulting scratch cash
(possibly negative) is carried to the next order. -/
def checkStep (comms : Nat → CommInfo) (acc : CheckAcc) (r : Nat) : CheckAcc :=
  let o := acc.store r
  let c := comms o.dataId
  let livepos1 := posEnsure acc.livepos o.dataId
  let clone :=
    match acc.clones.find? (fun e => e.1 == o.dataId) with
    | some e => e.2
    | none => posGet livepos1 o.dataId
  let pr := execPseudo c o clone acc.scratch
  let clones2 := posSet acc.clones o.dataId pr.2
  if pr.1 ≥ 0 then
    let o1 := Order.accept { o with pannotated := none }
    ⟨updStore acc.store r o1, acc.pending ++ [r], acc.notifs ++ [o1],
      pr.1, clones2, livepos1⟩
  else
    let o1 := o.margin
    ⟨updStore acc.store r o1, acc.pending, acc.notifs ++ [o1],
      pr.1, clones2, livepos1⟩

/-- `BrokerBack.check_submitted`: drain the Submitted queue in FIFO order,
pseudo-executing each order against a scratch cash seeded once from the
live ledger cash and per-instrument position clones. -/
def checkSubmitted (b : Broker) : Broker :=
  let acc := b.submitted.foldl (checkStep b.comms)
    ⟨b.store, b.pending, b.notifs, b.cash, [], b.positions⟩
  { b with store := acc.store, pending := acc.pending, notifs := acc.notifs,
           positions := acc.livepos, submitted := [] }

/-- `BrokerBack.cancel`: remove the order from the Pending queue if present
(Canceled, notified, `true`); report `false` otherwise. -/
def cancel (b : Broker) (r : Nat) : Broker × Bool :=
  if r ∈ b.pending then
    let o1 := (b.store r).cancel
    ({ b with pending := b.pending.erase r, store := updStore b.store r o1,
              notifs := b.notifs ++ [o1] }, true)
  else (b, false)

/-- Accumulator of the Pending-queue matching loop. -/
structure PendAcc where
  cash : ℚ
  store : Nat → Order
  positions : List (Nat × Position)
  notifs : List Order
  pending : List Nat

/-- One iteration of the matching loop of `BrokerBack.next`: expire the
order if its validity has passed, otherwise run `_try_exec` against its
instrument's bar; a still-alive order is appended back to the Pending
queue.  The position map is only written when `_execute` actually ran (the
`defaultdict` entry is only created inside `_execute`). -/
def pendStep (eosbar : Bool) (comms : Nat → CommInfo) (bars : Nat → BarData)
    (acc : PendAcc) (r : Nat) : PendAcc :=
  let o := acc.store r
  let bar := bars o.dataId
  if o.expired bar.dt then
    let o1 := { o with status := .Expired }
    { acc with store := updStore acc.store r o1, notifs := acc.notifs ++ [o1] }
  else
    let c := comms o.dataId
    let x := tryExec eosbar c ⟨acc.cash, posGet acc.positions o.dataId, o,
      acc.notifs, []⟩ bar
    let positions2 := if x.agolog = [] then acc.positions
      else posSet acc.positions o.dataId x.pos
    let pending2 := if x.ord.alive then acc.pending ++ [r] else acc.pending
    ⟨x.cash, updStore acc.store r x.ord, positions2, x.notifs, pending2⟩

/-- The end-of-bar mark-to-market sweep of `BrokerBack.next`: every open
(non-zero) position adds `cashadjust(size, adjbase, close)` to cash and has
its adjustment base set to the bar close. -/
def sweep (comms : Nat → CommInfo) (bars : Nat → BarData) :
    ℚ → List (Nat × Position) → ℚ × List (Nat × Position)
  | cash, [] => (cash, [])
  | cash, e :: t =>
      if e.2.size ≠ 0 then
        let r := sweep comms bars
          (cash + (comms e.1).cashadjust e.2.size e.2.adjbase (bars e.1).cl) t
        (r.1, (e.1, { e.2 with adjbase := (bars e.1).cl }) :: r.2)
      else
        let r := sweep comms bars cash t
        (r.1, e :: r.2)

/-- The broker state after admission control and the matching loop of one
`next` step, before the mark-to-market sweep. -/
def matchPhase (bars : Nat → BarData) (b : Broker) : Broker :=
  let b1 := if b.checksubmit then checkSubmitted b else b
  let acc := b1.pending.foldl (pendStep b1.eosbar b1.comms bars)
    ⟨b1.cash, b1.store, b1.positions, b1.notifs, []⟩
  { b1 with cash := acc.cash, store := acc.store, positions := acc.positions,
            notifs := acc.notifs, pending := acc.pending }

/-- `BrokerBack.next`: one simulated step — admission control, the matching
loop over the Pending queue, then the end-of-bar mark-to-market sweep. -/
def Broker.next (bars : Nat → BarData) (b : Broker) : Broker :=
  let b2 := matchPhase bars b
  let r := sweep b2.comms bars b2.cash b2.positions
  { b2 with cash := r.1, positions := r.2 }

/-- `BrokerBack.get_value`: the portfolio value of the given instruments
(all held positions when the list is empty, matching `datas or
self.positions`).  A single-instrument request returns that instrument's
raw signed value; otherwise cash plus the sum of absolute position
values. -/
def getValue (b : Broker) (bars : Nat → BarData) (datas : List Nat) : ℚ :=
  match datas with
  | [d] => (b.comms d).getvalue (posGet b.positions d).size (bars d).cl
  | _ =>
    let iter := if datas.isEmpty then b.positions.map Prod.fst else datas
    b.cash + (iter.map fun d =>
      |(b.comms d).getvalue (posGet b.positions d).size (bars d).cl|).sum

/-- C5: Limit matching rule — a pending buy Limit order fills at the bar
open when `limit ≥ open`, else at the limit when `limit ≥ low`, else it does
not fill; a sell Limit order is the mirror against the high; and an unfilled
Limit order is retained in the Pending queue by the simulation step. -/
theorem limit_matching_rule (c : CommInfo) (x : XCtx)
    (popen phigh plow plimit : ℚ) :
    ((x.ord.isbuy = true ∧ plimit ≥ popen) →
        tryExecLimit c x popen phigh plow plimit = execRealX c x 0 popen) ∧
    ((x.ord.isbuy = true ∧ plimit < popen ∧ plimit ≥ plow) →
        tryExecLimit c x popen phigh plow plimit = execRealX c x 0 plimit) ∧
    ((x.ord.isbuy = true ∧ plimit < popen ∧ plimit < plow) →
        tryExecLimit c x popen phigh plow plimit = x) ∧
    ((x.ord.isbuy = false ∧ plimit ≤ popen) →
        tryExecLimit c x popen phigh plow plimit = execRealX c x 0 popen) ∧
    ((x.ord.isbuy = false ∧ plimit > popen ∧ plimit ≤ phigh) →
        tryExecLimit c x popen phigh plow plimit = execRealX c x 0 plimit) ∧
    ((x.ord.isbuy = false ∧ plimit > popen ∧ plimit > phigh) →
        tryExecLimit c x popen phigh plow plimit = x) ∧
    (∀ (bars : Nat → BarData) (b : Broker) (r : Nat),
      b.submitted = [] → b.pending = [r] →
      (b.store r).exectype = .Limit → (b.store r).isbuy = true →
      (b.store r).status = .Accepted → (b.store r).valid = none →
      (bars (b.store r).dataId).tickOpen = none →
      (bars (b.store r).dataId).tickLow = none →
      (b.store r).createdPrice < (bars (b.store r).dataId).op →
      (b.store r).createdPrice < (bars (b.store r).dataId).lo →
      (Broker.next bars b).pending = [r] ∧
        (Broker.next bars b).store r = b.store r) := by
  refine ⟨?_, ?_, ?_, ?_, ?_, ?_, ?_⟩
  · rintro ⟨hb, h⟩
    simp [tryExecLimit, hb, h]
  · rintro ⟨hb, h1, h2⟩
    simp [tryExecLimit, hb, h2, not_le.mpr h1]
  · rintro ⟨hb, h1, h2⟩
    simp [tryExecLimit, hb, not_le.mpr h1, not_le.mpr h2]
  · rintro ⟨hb, h⟩
    simp [tryExecLimit, hb, h]
  · rintro ⟨hb, h1, h2⟩
    simp [tryExecLimit, hb, h2, not_le.mpr h1]
  · rintro ⟨hb, h1, h2⟩
    simp [tryExecLimit, hb, not_le.mpr h1, not_le.mpr h2]
  · intro bars b r hsub hpend hty hbuy hst hval htko htkl hlt1 hlt2
    have hnofill :
        tryExec b.eosbar (b.comms (b.store r).dataId)
          ⟨b.cash, posGet b.positions (b.store r).dataId, b.store r, b.notifs,
            []⟩ (bars (b.store r).dataId) =
        ⟨b.cash, posGet b.positions (b.store r).dataId, b.store r, b.notifs,
          []⟩ := by
      unfold tryExec
      simp only [hty]
      rw [tryExecLimit]
      simp [hbuy, pyOr, htko, htkl, not_le.mpr hlt1, not_le.mpr hlt2]
    have hexp : (b.store r).expired (bars (b.store r).dataId).dt = false := by
      simp [Order.expired, hval]
    have halive : (b.store r).alive = true := by
      simp [Order.alive, hst]
    unfold Broker.next matchPhase
    rcases hcs : b.checksubmit with _ | _ <;>
      simp only [hcs, Bool.false_eq_true, if_true, if_false, checkSubmitted,
        hsub, List.foldl_nil, hpend, List.foldl_cons, pendStep, hexp, hnofill,
        halive, Bool.not_eq_true] <;>
      simp [sweep, pendStep, hexp, hnofill, halive, updStore]


/-- Witness for C5 (Scenario B): a buy Limit at 95 on a bar with open 100,
low 97, high 105 does not fill and remains alone in the Pending queue,
unchanged. -/
theorem limit_matching_rule_witness :
    (Broker.next (fun _ => ⟨100, 105, 97, 102, 1, 0, 1, none, none, none, none⟩)
      ⟨10000, 10000, [0],
        (fun _ => ⟨0, 0, true, .Limit, 95, 0, 10, .Accepted, false, none, none, 0, 0⟩),
        [], [0], [], [], (fun _ => ⟨1, 0, 0, true⟩), true, false⟩).pending = [0] ∧
    (Broker.next (fun _ => ⟨100, 105, 97, 102, 1, 0, 1, none, none, none, none⟩)
      ⟨10000, 10000, [0],
        (fun _ => ⟨0, 0, true, .Limit, 95, 0, 10, .Accepted, false, none, none, 0, 0⟩),
        [], [0], [], [], (fun _ => ⟨1, 0, 0, true⟩), true, false⟩).store 0 =
      ⟨0, 0, true, .Limit, 95, 0, 10, .Accepted, false, none, none, 0, 0⟩ := by
  have h := (limit_matching_rule ⟨1, 0, 0, true⟩
      ⟨0, ⟨0, 0, 0⟩, ⟨0, 0, true, .Limit, 95, 0, 10, .Accepted, false, none, none, 0, 0⟩, [], []⟩
      0 0 0 0).2.2.2.2.2.2
    (fun _ => ⟨100, 105, 97, 102, 1, 0, 1, none, none, none, none⟩)
    ⟨10000, 10000, [0],
      (fun _ => ⟨0, 0, true, .Limit, 95, 0, 10, .Accepted, false, none, none, 0, 0⟩),
      [], [0], [], [], (fun _ => ⟨1, 0, 0, true⟩), true, false⟩
    0 rfl rfl rfl rfl rfl rfl rfl rfl (by norm_num) (by norm_num)
  exact h

/-- `_execute` never touches the StopLimit trigger latch. -/
theorem execRealX_triggered (c : CommInfo) (x : XCtx) (ago : Int) (price : ℚ) :
    (execRealX c x ago price).ord.triggered = x.ord.triggered := by
  simp only [execRealX, execReal]
  split_ifs <;> simp [Order.execute, Order.margin]

/-- The Limit matcher never touches the trigger latch. -/
theorem tryExecLimit_triggered (c : CommInfo) (x : XCtx)
    (popen phigh plow plimit : ℚ) :
    (tryExecLimit c x popen phigh plow plimit).ord.triggered =
      x.ord.triggered := by
  unfold tryExecLimit
  split_ifs <;> first | rfl | rw [execRealX_triggered]

/-- The Stop matcher never touches the trigger latch. -/
theorem tryExecStop_triggered (c : CommInfo) (x : XCtx)
    (popen phigh plow pcreated : ℚ) :
    (tryExecStop c x popen phigh plow pcreated).ord.triggered =
      x.ord.triggered := by
  unfold tryExecStop
  split_ifs <;> first | rfl | rw [execRealX_triggered]

/-- The Close matcher never touches the trigger latch. -/
theorem tryExecClose_triggered (eosbar : Bool) (c : CommInfo) (x : XCtx)
    (bar : BarData) :
    (tryExecClose eosbar c x bar).ord.triggered = x.ord.triggered := by
  unfold tryExecClose
  split_ifs <;> first | rfl | rw [execRealX_triggered]

/-- The StopLimit matcher never resets an already-set trigger latch. -/
theorem tryExecStopLimit_triggered_mono (c : CommInfo) (x : XCtx)
    (popen phigh plow pclose pcreated plimit : ℚ)
    (htr : x.ord.triggered = true) :
    (tryExecStopLimit c x popen phigh plow pclose pcreated plimit).ord.triggered
      = true := by
  simp only [tryExecStopLimit, XCtx.trigger]
  split_ifs <;>
    first
      | exact htr
      | rfl
      | rw [execRealX_triggered]
      | (rw [execRealX_triggered]; exact htr)

/-- C7: StopLimit gap rule — an un-triggered buy StopLimit whose bar opens
at or above the trigger price latches `triggered` and fills this bar at the
open when `limit ≥ open`, else at the limit when `limit ≥ low`, else not at
all; once `triggered` is set, on later bars the order is matched purely as
a Limit order at its limit price, and no matching step ever resets the
latch. -/
theorem stoplimit_gap_rule (eosbar : Bool) (c : CommInfo) (x : XCtx)
    (bar : BarData) :
    (x.ord.exectype = .StopLimit → x.ord.triggered = false →
      x.ord.isbuy = true →
      pyOr bar.tickOpen bar.op ≥ x.ord.createdPrice →
      ((tryExec eosbar c x bar).ord.triggered = true ∧
       tryExec eosbar c x bar =
         (if x.ord.pricelimit ≥ pyOr bar.tickOpen bar.op then
            execRealX c x.trigger 0 (pyOr bar.tickOpen bar.op)
          else if x.ord.pricelimit ≥ pyOr bar.tickLow bar.lo then
            execRealX c x.trigger 0 x.ord.pricelimit
          else x.trigger))) ∧
    (x.ord.exectype = .StopLimit → x.ord.triggered = true →
      tryExec eosbar c x bar =
        tryExecLimit c x (pyOr bar.tickOpen bar.op) (pyOr bar.tickHigh bar.hi)
          (pyOr bar.tickLow bar.lo) x.ord.pricelimit) ∧
    (x.ord.triggered = true → (tryExec eosbar c x bar).ord.triggered = true) := by
  refine ⟨?_, ?_, ?_⟩
  · intro hty htr hbuy hge
    have hdisp : tryExec eosbar c x bar =
        tryExecStopLimit c x (pyOr bar.tickOpen bar.op)
          (pyOr bar.tickHigh bar.hi) (pyOr bar.tickLow bar.lo)
          (pyOr bar.tickClose bar.cl) x.ord.createdPrice x.ord.pricelimit := by
      unfold tryExec
      simp [hty, htr]
    have hbody : tryExecStopLimit c x (pyOr bar.tickOpen bar.op)
          (pyOr bar.tickHigh bar.hi) (pyOr bar.tickLow bar.lo)
          (pyOr bar.tickClose bar.cl) x.ord.createdPrice x.ord.pricelimit =
        (if x.ord.pricelimit ≥ pyOr bar.tickOpen bar.op then
            execRealX c x.trigger 0 (pyOr bar.tickOpen bar.op)
          else if x.ord.pricelimit ≥ pyOr bar.tickLow bar.lo then
            execRealX c x.trigger 0 x.ord.pricelimit
          else x.trigger) := by
      simp only [tryExecStopLimit, hbuy, if_true, if_pos hge]
    refine ⟨?_, hdisp.trans hbody⟩
    rw [hdisp, hbody]
    split_ifs <;>
      first
        | (rw [execRealX_triggered]; simp [XCtx.trigger])
        | simp [XCtx.trigger]
  · intro hty htr
    unfold tryExec
    simp [hty, htr]
  · intro htr
    simp only [tryExec]
    rcases hty : x.ord.exectype
    · rw [execRealX_triggered]; exact htr
    · rw [tryExecClose_triggered]; exact htr
    · rw [tryExecLimit_triggered]; exact htr
    · rw [tryExecStop_triggered]; exact htr
    · rw [if_pos htr, tryExecLimit_triggered]; exact htr

/-- Witness for C7 (Scenario F): StopLimit buy, trigger 105, limit 106, bar
open 107, low 106, high 110 — the latch is set and the fill happens at the
limit price 106 (the bar index 0 execution at price 106 is logged). -/
theorem stoplimit_gap_rule_witness :
    (tryExec false ⟨1, 0, 0, true⟩
      ⟨10000, ⟨0, 0, 0⟩,
        ⟨0, 0, true, .StopLimit, 105, 106, 10, .Accepted, false, none, none, 0, 0⟩,
        [], []⟩
      ⟨107, 110, 106, 108, 1, 0, 1, none, none, none, none⟩).ord.triggered = true ∧
    (tryExec false ⟨1, 0, 0, true⟩
      ⟨10000, ⟨0, 0, 0⟩,
        ⟨0, 0, true, .StopLimit, 105, 106, 10, .Accepted, false, none, none, 0, 0⟩,
        [], []⟩
      ⟨107, 110, 106, 108, 1, 0, 1, none, none, none, none⟩).agolog =
      [((0 : Int), (106 : ℚ))] := by
  have h := (stoplimit_gap_rule false ⟨1, 0, 0, true⟩
      ⟨10000, ⟨0, 0, 0⟩,
        ⟨0, 0, true, .StopLimit, 105, 106, 10, .Accepted, false, none, none, 0, 0⟩,
        [], []⟩
      ⟨107, 110, 106, 108, 1, 0, 1, none, none, none, none⟩).1
    rfl rfl rfl (by norm_num [pyOr])
  refine ⟨h.1, ?_⟩
  rw [h.2]
  rw [if_neg (by norm_num [pyOr]), if_pos (by norm_num [pyOr])]
  simp [execRealX, XCtx.trigger]

/-- C6 (code evaluation at the failing input): a Close order whose
end-of-session decision was deferred one bar — annotated previous close 99,
session end 10, previous bar time 10, current bar time 11 (feed length 2 >
`plen` 1) — is executed at the annotated price 99, but the engine logs the
`_execute` call with bar index `0`: the source computes `ago = -1` for this
case and then passes the literal `0`, contradicting both the spec and the
class's own docstring (which promises `-1` for the Close corner case). -/
theorem tryExecClose_deferred_passes_ago_zero :
    (tryExecClose false ⟨1, 0, 0, true⟩
      ⟨10000, ⟨0, 0, 0⟩,
        ⟨0, 0, true, .Close, 0, 0, 10, .Accepted, false, none, some 99, 1, 10⟩,
        [], []⟩
      ⟨100, 105, 97, 102, 11, 10, 2, none, none, none, none⟩).agolog =
      [((0 : Int), (99 : ℚ))] := by
  unfold tryExecClose
  rw [if_pos (by norm_num)]
  rw [if_pos (by norm_num [pyTruthy])]
  simp [execRealX]

/-- C8 (counterexample): `get_value` on a single-instrument list returns the
raw signed position value without cash — for cash 100 and a one-unit short
(stock-like) marked at close 50 it returns −50, not the claimed cash plus
absolute value 150. -/
theorem getValue_single_counterexample :
    getValue
      ⟨100, 100, [], (fun _ => ⟨0, 0, true, .Market, 0, 0, 0, .Created, false,
          none, none, 0, 0⟩), [], [], [(0, ⟨-1, 100, 0⟩)], [],
        (fun _ => ⟨1, 0, 0, true⟩), true, false⟩
      (fun _ => ⟨50, 50, 50, 50, 1, 0, 1, none, none, none, none⟩) [0]
      = -50 ∧
    ¬ (getValue
      ⟨100, 100, [], (fun _ => ⟨0, 0, true, .Market, 0, 0, 0, .Created, false,
          none, none, 0, 0⟩), [], [], [(0, ⟨-1, 100, 0⟩)], [],
        (fun _ => ⟨1, 0, 0, true⟩), true, false⟩
      (fun _ => ⟨50, 50, 50, 50, 1, 0, 1, none, none, none, none⟩) [0]
      = 100 + |(-1 : ℚ) * 50|) := by
  constructor
  · norm_num [getValue, posGet, CommInfo.getvalue]
  · norm_num [getValue, posGet, CommInfo.getvalue]

/-- C8 (amended): `get_value` returns, for an empty request, cash plus the
sum of the absolute position values of all held instruments; for a request
of two or more instruments, cash plus the sum of their absolute position
values; but for a single-instrument request, that instrument's raw signed
position value alone, without cash (a short contributes negatively). -/
theorem getValue_characterization (b : Broker) (bars : Nat → BarData)
    (datas : List Nat) :
    (∀ d, datas = [d] →
      getValue b bars datas =
        (b.comms d).getvalue (posGet b.positions d).size (bars d).cl) ∧
    (datas = [] →
      getValue b bars datas =
        b.cash + ((b.positions.map Prod.fst).map fun d =>
          |(b.comms d).getvalue (posGet b.positions d).size (bars d).cl|).sum) ∧
    (2 ≤ datas.length →
      getValue b bars datas =
        b.cash + (datas.map fun d =>
          |(b.comms d).getvalue (posGet b.positions d).size (bars d).cl|).sum) := by
  refine ⟨?_, ?_, ?_⟩
  · rintro d rfl
    rfl
  · rintro rfl
    rfl
  · intro hlen
    rcases datas with _ | ⟨d1, _ | ⟨d2, rest⟩⟩
    · simp at hlen
    · simp at hlen
    · rfl

/-- Witness for C8's amended claim: cash 100 with a one-unit short marked at
50 values the whole portfolio (empty request) at 100 + |−50| = 150. -/
theorem getValue_characterization_witness :
    getValue
      ⟨100, 100, [], (fun _ => ⟨0, 0, true, .Market, 0, 0, 0, .Created, false,
          none, none, 0, 0⟩), [], [], [(0, ⟨-1, 100, 0⟩)], [],
        (fun _ => ⟨1, 0, 0, true⟩), true, false⟩
      (fun _ => ⟨50, 50, 50, 50, 1, 0, 1, none, none, none, none⟩) []
      = 150 := by
  have h := (getValue_characterization
      ⟨100, 100, [], (fun _ => ⟨0, 0, true, .Market, 0, 0, 0, .Created, false,
          none, none, 0, 0⟩), [], [], [(0, ⟨-1, 100, 0⟩)], [],
        (fun _ => ⟨1, 0, 0, true⟩), true, false⟩
      (fun _ => ⟨50, 50, 50, 50, 1, 0, 1, none, none, none, none⟩) []).2.1 rfl
  rw [h]
  norm_num [posGet, CommInfo.getvalue]

/-- Closed form of the mark-to-market sweep: the resulting cash is the
incoming cash plus one `cashadjust` term per open position, and every open
position's adjustment base becomes the bar close. -/
theorem sweep_spec (comms : Nat → CommInfo) (bars : Nat → BarData)
    (cash : ℚ) (ps : List (Nat × Position)) :
    sweep comms bars cash ps =
      (cash + (ps.map fun e => if e.2.size ≠ 0 then
          (comms e.1).cashadjust e.2.size e.2.adjbase (bars e.1).cl
        else 0).sum,
       ps.map fun e => if e.2.size ≠ 0 then
          (e.1, { e.2 with adjbase := (bars e.1).cl })
        else e) := by
  induction ps generalizing cash with
  | nil => simp [sweep]
  | cons e t ih =>
    by_cases h : e.2.size = 0
    · simp [sweep, h, ih]
    · simp [sweep, h, ih, add_assoc]

/-- Neither admission control nor the matching loop changes the commission
registry. -/
theorem matchPhase_comms (bars : Nat → BarData) (b : Broker) :
    (matchPhase bars b).comms = b.comms := by
  unfold matchPhase checkSubmitted
  split_ifs <;> rfl

/-- C4: Per-bar mark-to-market sweep — in every simulation step, after the
pending-order matching loop (which itself ran after admission control), the
resulting cash is the post-matching cash plus
`cashadjust(size, adjustmentBase, close)` for every instrument with a
non-zero position, every such position's adjustment base becomes the bar
close, and size-zero positions and stock-like instruments contribute no
cash change. -/
theorem mark_to_market_sweep (bars : Nat → BarData) (b : Broker) :
    (Broker.next bars b).cash =
      (matchPhase bars b).cash +
        ((matchPhase bars b).positions.map fun e =>
          if e.2.size ≠ 0 then
            (b.comms e.1).cashadjust e.2.size e.2.adjbase (bars e.1).cl
          else 0).sum ∧
    (Broker.next bars b).positions =
      ((matchPhase bars b).positions.map fun e =>
        if e.2.size ≠ 0 then (e.1, { e.2 with adjbase := (bars e.1).cl })
        else e) ∧
    (∀ e ∈ (matchPhase bars b).positions,
      (b.comms e.1).stocklike = true →
      (b.comms e.1).cashadjust e.2.size e.2.adjbase (bars e.1).cl = 0) := by
  refine ⟨?_, ?_, ?_⟩
  · show (sweep (matchPhase bars b).comms bars (matchPhase bars b).cash
        (matchPhase bars b).positions).1 = _
    rw [matchPhase_comms, sweep_spec]
  · show (sweep (matchPhase bars b).comms bars (matchPhase bars b).cash
        (matchPhase bars b).positions).2 = _
    rw [matchPhase_comms, sweep_spec]
  · intro e _ hst
    simp [CommInfo.cashadjust, hst]

/-- Witness for C4: a broker holding 5 futures-like contracts (multiplier 1)
based at 100 gains 5·(104−100) = 20 cash in a step whose bar closes at 104,
with empty order queues. -/
theorem mark_to_market_sweep_witness :
    (Broker.next (fun _ => ⟨100, 105, 97, 104, 1, 0, 1, none, none, none, none⟩)
      ⟨10000, 10000, [], (fun _ => ⟨0, 0, true, .Market, 0, 0, 0, .Created,
          false, none, none, 0, 0⟩), [], [], [(0, ⟨5, 100, 100⟩)], [],
        (fun _ => ⟨1, 50, 0, false⟩), true, false⟩).cash = 10020 := by
  have h := (mark_to_market_sweep
      (fun _ => ⟨100, 105, 97, 104, 1, 0, 1, none, none, none, none⟩)
      ⟨10000, 10000, [], (fun _ => ⟨0, 0, true, .Market, 0, 0, 0, .Created,
          false, none, none, 0, 0⟩), [], [], [(0, ⟨5, 100, 100⟩)], [],
        (fun _ => ⟨1, 50, 0, false⟩), true, false⟩).1
  rw [h]
  norm_num [matchPhase, checkSubmitted, CommInfo.cashadjust]

/-- The `defaultdict` access side effect does not change any read of the
position map. -/
theorem posGet_posEnsure (ps : List (Nat × Position)) (d d' : Nat) :
    posGet (posEnsure ps d) d' = posGet ps d' := by
  unfold posEnsure
  split_ifs with h
  · rfl
  · unfold posGet
    rw [List.find?_append]
    rcases hf : ps.find? (fun e => e.1 == d') with _ | e
    · by_cases hd : d = d'
      · simp [hf, List.find?, hd]
      · have hbeq : (d == d') = false := beq_eq_false_iff_ne.mpr hd
        simp [hf, List.find?, hbeq]
    · simp [hf]

/-- C3: Admission rejection — with the submission check enabled, a submitted
order whose pseudo-execution at its creation price (against a cloned
position and scratch cash seeded from live ledger cash) leaves cash negative
becomes MarginRejected, the live cash and every position read are unchanged,
and exactly one notification is emitted for it; with resulting cash ≥ 0 the
order becomes Accepted and moves to the Pending queue. -/
theorem admission_rejection (b : Broker) (r : Nat)
    (hsub : b.submitted = [r]) :
    ((execPseudo (b.comms (b.store r).dataId) (b.store r)
        (posGet b.positions (b.store r).dataId) b.cash).1 < 0 →
      ((checkSubmitted b).store r = (b.store r).margin ∧
       ((checkSubmitted b).store r).status = .Margin ∧
       (checkSubmitted b).cash = b.cash ∧
       (∀ d, posGet (checkSubmitted b).positions d = posGet b.positions d) ∧
       (checkSubmitted b).notifs = b.notifs ++ [(b.store r).margin] ∧
       (checkSubmitted b).pending = b.pending ∧
       (checkSubmitted b).submitted = [])) ∧
    (0 ≤ (execPseudo (b.comms (b.store r).dataId) (b.store r)
        (posGet b.positions (b.store r).dataId) b.cash).1 →
      ((checkSubmitted b).store r =
          Order.accept { b.store r with pannotated := none } ∧
       ((checkSubmitted b).store r).status = .Accepted ∧
       (checkSubmitted b).pending = b.pending ++ [r] ∧
       (checkSubmitted b).cash = b.cash ∧
       (checkSubmitted b).notifs =
          b.notifs ++ [Order.accept { b.store r with pannotated := none }] ∧
       (checkSubmitted b).submitted = [])) := by
  have hpe := posGet_posEnsure b.positions (b.store r).dataId
  constructor
  · intro h
    unfold checkSubmitted
    rw [hsub]
    simp only [List.foldl_cons, List.foldl_nil, checkStep, List.find?_nil,
      hpe, if_neg (not_le.mpr h)]
    refine ⟨?_, ?_, ?_, ?_, ?_, ?_, ?_⟩ <;>
      first
        | trivial
        | simp [updStore, Order.margin]
        | (intro d; exact posGet_posEnsure b.positions (b.store r).dataId d)
  · intro h
    unfold checkSubmitted
    rw [hsub]
    simp only [List.foldl_cons, List.foldl_nil, checkStep, List.find?_nil,
      hpe, if_pos h]
    refine ⟨?_, ?_, ?_, ?_, ?_, ?_⟩ <;>
      first
        | trivial
        | simp [updStore, Order.accept]

/-- Witness for C3 (Scenario E): cash 100, a submitted Market buy of 5 at
creation price 100 (cost 500): the admission pass margin-rejects it, leaves
cash at 100 and emits exactly one notification. -/
theorem admission_rejection_witness :
    ((checkSubmitted ⟨100, 100, [0],
        (fun _ => ⟨0, 0, true, .Market, 100, 0, 5, .Submitted, false, none,
          none, 0, 0⟩), [0], [], [], [], (fun _ => ⟨1, 0, 0, true⟩), true,
        false⟩).store 0).status = .Margin ∧
    (checkSubmitted ⟨100, 100, [0],
        (fun _ => ⟨0, 0, true, .Market, 100, 0, 5, .Submitted, false, none,
          none, 0, 0⟩), [0], [], [], [], (fun _ => ⟨1, 0, 0, true⟩), true,
        false⟩).cash = 100 ∧
    (checkSubmitted ⟨100, 100, [0],
        (fun _ => ⟨0, 0, true, .Market, 100, 0, 5, .Submitted, false, none,
          none, 0, 0⟩), [0], [], [], [], (fun _ => ⟨1, 0, 0, true⟩), true,
        false⟩).notifs =
      [⟨0, 0, true, .Market, 100, 0, 5, .Margin, false, none, none, 0, 0⟩] := by
  have h := (admission_rejection ⟨100, 100, [0],
      (fun _ => ⟨0, 0, true, .Market, 100, 0, 5, .Submitted, false, none,
        none, 0, 0⟩), [0], [], [], [], (fun _ => ⟨1, 0, 0, true⟩), true,
      false⟩ 0 rfl).1
    (by norm_num [execPseudo, Position.update, posGet, default_position,
      CommInfo.getoperationcost, CommInfo.getcommission])
  exact ⟨h.2.1, h.2.2.1, h.2.2.2.2.1⟩

/-- The scratch-cash thread of one admission pass, standalone: starting from
a seed cash and clone map, pseudo-execute each order in turn (rejected or
not, its resulting cash seeds the next order's check). -/
def pseudoThread (comms : Nat → CommInfo) (store : Nat → Order)
    (lp : List (Nat × Position)) :
    ℚ × List (Nat × Position) → List Nat → ℚ × List (Nat × Position)
  | acc, [] => acc
  | acc, r :: rest =>
      let o := store r
      let c := comms o.dataId
      let clone :=
        match acc.2.find? (fun e => e.1 == o.dataId) with
        | some e => e.2
        | none => posGet lp o.dataId
      let pr := execPseudo c o clone acc.1
      pseudoThread comms store lp (pr.1, posSet acc.2 o.dataId pr.2) rest

/-- An admission iteration only writes the processed order's slot. -/
theorem checkStep_store_frame (comms : Nat → CommInfo) (acc : CheckAcc)
    (a r : Nat) (hne : r ≠ a) :
    (checkStep comms acc a).store r = acc.store r := by
  simp only [checkStep]
  split_ifs <;> simp [updStore, hne]

/-- The admission drain loop never writes the slot of an unprocessed
order. -/
theorem checkFold_store_frame (comms : Nat → CommInfo) :
    ∀ (refs : List Nat) (acc : CheckAcc) (r : Nat), r ∉ refs →
      (refs.foldl (checkStep comms) acc).store r = acc.store r := by
  intro refs
  induction refs with
  | nil => intro acc r _; rfl
  | cons a t ih =>
    intro acc r hr
    rw [List.foldl_cons, ih _ r (fun h => hr (List.mem_cons_of_mem _ h))]
    exact checkStep_store_frame comms acc a r
      (fun he => hr (he ▸ List.mem_cons_self a t))

/-- The admission drain loop computed by `checkStep` realizes the standalone
scratch thread: its final scratch cash is the fold over the whole queue, and
each order's resulting status is Accepted or MarginRejected according to the
sign of the scratch cash after the fold over the queue prefix ending at that
order. -/
theorem checkFold_spec (comms : Nat → CommInfo) (lp : List (Nat × Position))
    (s0 : Nat → Order) :
    ∀ (refs : List Nat) (acc : CheckAcc),
      refs.Nodup →
      (∀ d, posGet acc.livepos d = posGet lp d) →
      (∀ r ∈ refs, acc.store r = s0 r) →
      (refs.foldl (checkStep comms) acc).scratch =
          (pseudoThread comms s0 lp (acc.scratch, acc.clones) refs).1 ∧
      ∀ (i : ℕ) (hi : i < refs.length),
        ((refs.foldl (checkStep comms) acc).store (refs.get ⟨i, hi⟩)).status =
          (if 0 ≤ (pseudoThread comms s0 lp (acc.scratch, acc.clones)
              (refs.take (i+1))).1
           then OrdStatus.Accepted else OrdStatus.Margin) := by
  intro refs
  induction refs with
  | nil =>
    intro acc _ _ _
    refine ⟨rfl, ?_⟩
    intro i hi
    simp at hi
  | cons r rest ih =>
    intro acc hnd hlp hst
    have hsr : acc.store r = s0 r := hst r (List.mem_cons_self r rest)
    have hthread : ∀ ℓ,
        pseudoThread comms s0 lp (acc.scratch, acc.clones) (r :: ℓ) =
          pseudoThread comms s0 lp ((checkStep comms acc r).scratch,
            (checkStep comms acc r).clones) ℓ := by
      intro ℓ
      simp only [pseudoThread, checkStep, hsr, posGet_posEnsure, hlp]
      split_ifs <;> rfl
    have hlp' : ∀ d, posGet (checkStep comms acc r).livepos d = posGet lp d := by
      intro d
      have hlive : (checkStep comms acc r).livepos =
          posEnsure acc.livepos (acc.store r).dataId := by
        simp only [checkStep]
        split_ifs <;> rfl
      rw [hlive, posGet_posEnsure, hlp]
    have hst' : ∀ r' ∈ rest, (checkStep comms acc r).store r' = s0 r' := by
      intro r' hr'
      have hne : r' ≠ r := fun he => (List.nodup_cons.mp hnd).1 (he ▸ hr')
      rw [checkStep_store_frame comms acc r r' hne]
      exact hst r' (List.mem_cons_of_mem _ hr')
    obtain ⟨ihs, ihidx⟩ := ih (checkStep comms acc r)
      (List.nodup_cons.mp hnd).2 hlp' hst'
    constructor
    · rw [List.foldl_cons, ihs, hthread]
    · intro i hi
      match i with
      | 0 =>
        rw [List.foldl_cons]
        have hnotin : r ∉ rest := (List.nodup_cons.mp hnd).1
        have hget : (r :: rest).get ⟨0, hi⟩ = r := rfl
        rw [hget, checkFold_store_frame comms rest _ r hnotin]
        have htake : (r :: rest).take 1 = [r] := by simp
        rw [htake]
        have hone : (pseudoThread comms s0 lp (acc.scratch, acc.clones) [r]).1 =
            ((checkStep comms acc r).scratch) := by
          rw [hthread]
          rfl
        rw [hone]
        simp only [checkStep, hsr, posGet_posEnsure, hlp]
        split_ifs with hge <;> simp_all [updStore, Order.accept, Order.margin]
      | Nat.succ j =>
        rw [List.foldl_cons]
        have hj : j < rest.length := Nat.lt_of_succ_lt_succ hi
        have hget : (r :: rest).get ⟨j + 1, hi⟩ = rest.get ⟨j, hj⟩ := rfl
        rw [hget]
        have htake : (r :: rest).take (j + 1 + 1) = r :: rest.take (j + 1) := by
          simp [List.take_succ_cons]
        rw [htake, hthread]
        exact ihidx j hj

/-- C10: Admission-pass scratch threading — within one `check_submitted`
pass the scratch cash is seeded once from live ledger cash and threaded in
FIFO order through the pseudo-execution of every submitted order, so each
order's admission decision is the sign of the scratch cash after the fold
over the whole queue prefix up to it — the effects of earlier orders,
rejected ones included, carry over — while the live ledger cash is never
modified by the pass. -/
theorem admission_scratch_threading (b : Broker) (hnd : b.submitted.Nodup) :
    (checkSubmitted b).cash = b.cash ∧
    ∀ (i : ℕ) (hi : i < b.submitted.length),
      ((checkSubmitted b).store (b.submitted.get ⟨i, hi⟩)).status =
        (if 0 ≤ (pseudoThread b.comms b.store b.positions (b.cash, [])
            (b.submitted.take (i+1))).1
         then OrdStatus.Accepted else OrdStatus.Margin) := by
  refine ⟨rfl, ?_⟩
  have h := checkFold_spec b.comms b.positions b.store b.submitted
    ⟨b.store, b.pending, b.notifs, b.cash, [], b.positions⟩ hnd
    (fun _ => rfl) (fun _ _ => rfl)
  intro i hi
  exact h.2 i hi

/-- Witness for C10: cash 100; order 0 (buy 3 at 50, cost 150) is rejected
leaving scratch −50, and order 1 (buy 1 at 30, cost 30) — affordable on its
own — is also rejected because the rejected order's negative scratch cash
carries over (−50 − 30 = −80 < 0); the live cash stays 100. -/
theorem admission_scratch_threading_witness :
    ((checkSubmitted ⟨100, 100, [0, 1],
        (fun r => if r = 0 then
            ⟨0, 0, true, .Market, 50, 0, 3, .Submitted, false, none, none, 0, 0⟩
          else
            ⟨1, 1, true, .Market, 30, 0, 1, .Submitted, false, none, none, 0, 0⟩),
        [0, 1], [], [], [], (fun _ => ⟨1, 0, 0, true⟩), true,
        false⟩).store 1).status = .Margin ∧
    (checkSubmitted ⟨100, 100, [0, 1],
        (fun r => if r = 0 then
            ⟨0, 0, true, .Market, 50, 0, 3, .Submitted, false, none, none, 0, 0⟩
          else
            ⟨1, 1, true, .Market, 30, 0, 1, .Submitted, false, none, none, 0, 0⟩),
        [0, 1], [], [], [], (fun _ => ⟨1, 0, 0, true⟩), true,
        false⟩).cash = 100 := by
  have h := admission_scratch_threading ⟨100, 100, [0, 1],
      (fun r => if r = 0 then
          ⟨0, 0, true, .Market, 50, 0, 3, .Submitted, false, none, none, 0, 0⟩
        else
          ⟨1, 1, true, .Market, 30, 0, 1, .Submitted, false, none, none, 0, 0⟩),
      [0, 1], [], [], [], (fun _ => ⟨1, 0, 0, true⟩), true, false⟩
    (by decide)
  have h2 := h.2 1 (by norm_num)
  have hc : (pseudoThread
      (fun _ => (⟨1, 0, 0, true⟩ : CommInfo))
      (fun r => if r = 0 then
          (⟨0, 0, true, .Market, 50, 0, 3, .Submitted, false, none, none, 0, 0⟩ : Order)
        else
          ⟨1, 1, true, .Market, 30, 0, 1, .Submitted, false, none, none, 0, 0⟩)
      [] ((100 : ℚ), []) ([0, 1].take 2)).1 = -80 := by
    norm_num [pseudoThread, execPseudo, Position.update, posGet, posSet,
      default_position, CommInfo.getoperationcost, CommInfo.getcommission,
      List.find?, show ((0 : ℕ) == 1) = false from rfl,
      show ((1 : ℕ) == 1) = true from rfl,
      show ((0 : ℕ) == 0) = true from rfl]
  rw [hc] at h2
  rw [if_neg (by norm_num)] at h2
  exact ⟨h2, h.1⟩

/-- The public operations of the queue-exclusivity claim. -/
inductive BrokerOp
  | submit (o : Order)
  | check
  | next (bars : Nat → BarData)
  | cancel (r : Nat)

/-- Apply one public operation to the broker state. -/
def applyOp (b : Broker) : BrokerOp → Broker
  | .submit o => submit b o
  | .check => checkSubmitted b
  | .next bars => Broker.next bars b
  | .cancel r => (cancel b r).1

/-- Operation precondition: a submit introduces a genuinely new order object
(its reference is not already queued), as `buy`/`sell` construct them. -/
def validOp (b : Broker) : BrokerOp → Prop
  | .submit o => o.ref ∉ b.submitted ∧ o.ref ∉ b.pending
  | _ => True

/-- Broker states reachable from a start state by valid operations. -/
inductive Reachable (b0 : Broker) : Broker → Prop
  | refl : Reachable b0 b0
  | step {b : Broker} {op : BrokerOp} : Reachable b0 b → validOp b op →
      Reachable b0 (applyOp b op)

/-- The inductive queue invariant: Submitted and Pending are disjoint and
the Submitted queue holds no duplicate references. -/
def QueueInv (b : Broker) : Prop :=
  (∀ r ∈ b.submitted, r ∉ b.pending) ∧ b.submitted.Nodup

/-- `submit` preserves the queue invariant (for a fresh order). -/
theorem queueInv_submit (b : Broker) (o : Order)
    (hv : o.ref ∉ b.submitted ∧ o.ref ∉ b.pending) (hI : QueueInv b) :
    QueueInv (submit b o) := by
  unfold submit submitAccept
  split_ifs
  · refine ⟨?_, ?_⟩
    · intro r hr
      rcases List.mem_append.mp hr with h | h
      · exact hI.1 r h
      · rw [List.mem_singleton.mp h]
        exact hv.2
    · rw [List.nodup_append]
      refine ⟨hI.2, List.nodup_singleton _, ?_⟩
      intro r hr hmem
      rw [List.mem_singleton.mp hmem] at hr
      exact hv.1 hr
  · refine ⟨?_, hI.2⟩
    intro r hr hmem
    rcases List.mem_append.mp hmem with h | h
    · exact hI.1 r hr h
    · rw [List.mem_singleton.mp h] at hr
      exact hv.1 hr

/-- `check_submitted` empties the Submitted queue, so the invariant holds
afterwards. -/
theorem queueInv_check (b : Broker) : QueueInv (checkSubmitted b) := by
  refine ⟨?_, ?_⟩
  · intro r hr
    simp [checkSubmitted] at hr
  · simp [checkSubmitted]

/-- One matching-loop iteration can only re-append the processed order. -/
theorem pendStep_pending_sub (eosbar : Bool) (comms : Nat → CommInfo)
    (bars : Nat → BarData) (acc : PendAcc) (a r : Nat)
    (h : r ∈ (pendStep eosbar comms bars acc a).pending) :
    r ∈ acc.pending ∨ r = a := by
  simp only [pendStep] at h
  split_ifs at h <;> dsimp only at h <;>
    first
      | exact Or.inl h
      | (rcases List.mem_append.mp h with h' | h'
         · exact Or.inl h'
         · exact Or.inr (List.mem_singleton.mp h'))

/-- Every member of the matching loop's resulting Pending queue was either
already accumulated or drawn from the processed list. -/
theorem pendFold_pending_sub (eosbar : Bool) (comms : Nat → CommInfo)
    (bars : Nat → BarData) :
    ∀ (l : List Nat) (acc : PendAcc) (r : Nat),
      r ∈ (l.foldl (pendStep eosbar comms bars) acc).pending →
      r ∈ acc.pending ∨ r ∈ l := by
  intro l
  induction l with
  | nil =>
    intro acc r h
    exact Or.inl h
  | cons a t ih =>
    intro acc r h
    rw [List.foldl_cons] at h
    rcases ih _ r h with h' | h'
    · rcases pendStep_pending_sub eosbar comms bars acc a r h' with h2 | h2
      · exact Or.inl h2
      · exact Or.inr (h2 ▸ List.mem_cons_self a t)
    · exact Or.inr (List.mem_cons_of_mem _ h')

/-- One simulation step preserves the queue invariant. -/
theorem queueInv_next (bars : Nat → BarData) (b : Broker) (hI : QueueInv b) :
    QueueInv (Broker.next bars b) := by
  unfold Broker.next matchPhase
  rcases hcs : b.checksubmit with _ | _
  · simp only [hcs, Bool.false_eq_true, if_false]
    refine ⟨?_, hI.2⟩
    intro r hr hmem
    rcases pendFold_pending_sub b.eosbar b.comms bars b.pending
        ⟨b.cash, b.store, b.positions, b.notifs, []⟩ r hmem with h | h
    · simp at h
    · exact hI.1 r hr h
  · simp only [hcs, if_true]
    refine ⟨?_, ?_⟩
    · intro r hr
      simp [checkSubmitted] at hr
    · simp [checkSubmitted]

/-- `cancel` preserves the queue invariant. -/
theorem queueInv_cancel (b : Broker) (r : Nat) (hI : QueueInv b) :
    QueueInv (cancel b r).1 := by
  unfold cancel
  split_ifs
  · refine ⟨?_, hI.2⟩
    intro s hs hmem
    exact hI.1 s hs (List.mem_of_mem_erase hmem)
  · exact hI

/-- C9: Queue exclusivity — in every broker state reachable from an initial
state by any sequence of submit, check_submitted, next and cancel
operations, no order reference is simultaneously present in both the
Submitted and the Pending queue. -/
theorem queue_exclusivity (cash : ℚ) (comms : Nat → CommInfo)
    (checksubmit eosbar : Bool) (store : Nat → Order) (b : Broker)
    (hre : Reachable (Broker.init cash comms checksubmit eosbar store) b) :
    ∀ r ∈ b.submitted, r ∉ b.pending := by
  have hInv : QueueInv b := by
    induction hre with
    | refl =>
      exact ⟨by intro r hr; simp [Broker.init] at hr, by simp [Broker.init]⟩
    | step hre hv ih =>
      rename_i b' op
      cases op with
      | submit o => exact queueInv_submit b' o hv ih
      | check => exact queueInv_check b'
      | next bars => exact queueInv_next bars b' ih
      | cancel r => exact queueInv_cancel b' r ih
  exact hInv.1

/-- Witness for C9: after submitting one fresh order (reference 0) to a
fresh broker, reference 0 sits in the Submitted queue and not in the
Pending queue. -/
theorem queue_exclusivity_witness :
    (0 : Nat) ∉ (applyOp (Broker.init 10000 (fun _ => ⟨1, 0, 0, true⟩) true
        false (fun _ => ⟨0, 0, true, .Market, 100, 0, 5, .Created, false,
          none, none, 0, 0⟩))
      (.submit ⟨0, 0, true, .Market, 100, 0, 5, .Created, false, none, none,
        0, 0⟩)).pending := by
  have hre : Reachable (Broker.init 10000 (fun _ => ⟨1, 0, 0, true⟩) true
      false (fun _ => ⟨0, 0, true, .Market, 100, 0, 5, .Created, false, none,
        none, 0, 0⟩))
      (applyOp (Broker.init 10000 (fun _ => ⟨1, 0, 0, true⟩) true false
        (fun _ => ⟨0, 0, true, .Market, 100, 0, 5, .Created, false, none,
          none, 0, 0⟩))
      (.submit ⟨0, 0, true, .Market, 100, 0, 5, .Created, false, none, none,
        0, 0⟩)) :=
    Reachable.step Reachable.refl
      ⟨List.not_mem_nil _, List.not_mem_nil _⟩
  refine queue_exclusivity 10000 (fun _ => ⟨1, 0, 0, true⟩) true false
    (fun _ => ⟨0, 0, true, .Market, 100, 0, 5, .Created, false, none, none,
      0, 0⟩) _ hre 0 ?_
  show (0 : Nat) ∈ [] ++ [(0 : Nat)]
  simp

end BBroker
